import Mathlib

/-!
Verification of the core logic of `generate_fake_frames.py`: the
interval-to-index mapping applied through `numpy.flatnonzero` and slice
assignment, the three auxiliary channel synthesizers (state vector, DQ
vector, iDQ noise monitor), the frame segmentation loop, and the
top-level control flow of the run (validation, gate-log writing,
synthesis, output).

Real-valued quantities (sample times, pads, strain data) are modelled as
rationals; machine integers as `ℤ`/`ℕ`.
-/

namespace FakeFrames

variable {α : Type*} {β : Type*}

/-- Time of sample `i` of a uniformly sampled series: `start_time + i * delta_t`.
This mirrors `TimeSeries.sample_times` for a series with the given epoch and
spacing. -/
def sampleTime (start dt : ℚ) (i : ℕ) : ℚ := start + i * dt

/-- Python `int()` applied to a rational: truncation toward zero. -/
def pyInt (q : ℚ) : ℤ := if 0 ≤ q then ⌊q⌋ else ⌈q⌉

/-- `numpy.abs` on a rational value. -/
def pyAbs (q : ℚ) : ℚ := if q < 0 then -q else q

/-- `np.flatnonzero` of a boolean condition evaluated at each index of an
array of length `n`: the sorted list of indices where the condition holds. -/
def fnz (q : ℕ → Bool) (n : ℕ) : List ℕ := (List.range n).filter q

/-- The override pattern shared by all three auxiliary channels
(`generate_fake_frames.py` lines 145-150, 175-178, 196-199):

    fnz = np.flatnonzero(condition)
    if len(fnz):
        ts[fnz[0]:fnz[-1]+1] = v      (or: += 6)

i.e. compute the nonzero indices of the condition, and if any exist, apply
`f` to every entry of the contiguous block from the first to the last such
index. -/
def applyMask (q : ℕ → Bool) (f : α → α) (xs : List α) : List α :=
  match fnz q xs.length with
  | [] => xs
  | a :: rest =>
      xs.mapIdx (fun i x =>
        if a ≤ i ∧ i ≤ (a :: rest).getLast (List.cons_ne_nil a rest) then f x else x)

/-- The Time Index Mapper: given a uniformly sampled series
`(start, dt, n)` and a time interval `[t0, t1)`, return the inclusive
index range `[i0, i1]` selected by the source's
`np.flatnonzero(times >= t0 & times < t1)` pattern, or `none` when no
sample qualifies. -/
def timeIndexRange (start dt : ℚ) (n : ℕ) (t0 t1 : ℚ) : Option (ℕ × ℕ) :=
  match fnz (fun i => decide (t0 ≤ sampleTime start dt i ∧ sampleTime start dt i < t1)) n with
  | [] => none
  | a :: rest => some (a, (a :: rest).getLast (List.cons_ne_nil a rest))


/-- Sample spacing of the state vector channel: `state_dt = 1. / 16.`. -/
def stateDt : ℚ := 1 / 16

/-- `state_size = int(strain.duration / state_dt)`. -/
def stateSize (duration : ℚ) : ℕ := (pyInt (duration / stateDt)).toNat

/-- Condition of the state-vector off-segment loop:
`state_ts_times >= start & state_ts_times < end` at index `i`. -/
def offPred (startT : ℚ) (seg : ℚ × ℚ) (i : ℕ) : Bool :=
  decide (seg.1 ≤ sampleTime startT stateDt i ∧ sampleTime startT stateDt i < seg.2)

/-- State vector synthesis (`generate_fake_frames.py` lines 135-150):
allocate `int(duration / (1/16))` samples, fill with the good value, then
for each off segment `(start, end)` zero the block of samples whose time
lies in `[start, end)`. -/
def makeStateVector (startT duration : ℚ) (good : ℕ) (offSegs : List (ℚ × ℚ)) : List ℕ :=
  offSegs.foldl (fun acc seg => applyMask (offPred startT seg) (fun _ => 0) acc)
    (List.replicate (stateSize duration) good)

/-- Sample spacing of the DQ vector channel: `dq_dt = 1. / 64.`. -/
def dqDt : ℚ := 1 / 64

/-- `dq_size = int(strain.duration / dq_dt)`. -/
def dqSize (duration : ℚ) : ℕ := (pyInt (duration / dqDt)).toNat

/-- Derivation of the bad value from the good value (lines 164-169):
Virgo style `dq_bad = 1` when `good == 0`, LIGO style `dq_bad = 0`
otherwise. -/
def dqBad (good : ℕ) : ℕ := if good = 0 then 1 else 0

/-- Condition of the bad-epoch loops: `abs(times - center) < pad` at
index `i` of a series with the given epoch and spacing. -/
def padPred (startT dt c pad : ℚ) (i : ℕ) : Bool :=
  decide (pyAbs (sampleTime startT dt i - c) < pad)

/-- DQ vector synthesis (lines 157-178): allocate `int(duration / (1/64))`
samples, fill with the good value, then for each bad-epoch center set the
block of samples with `|t - center| < pad` to the bad value. -/
def makeDQVector (startT duration : ℚ) (good : ℕ) (badTimes : List ℚ) (pad : ℚ) : List ℕ :=
  badTimes.foldl (fun acc c => applyMask (padPred startT dqDt c pad) (fun _ => dqBad good) acc)
    (List.replicate (dqSize duration) good)

/-- The iDQ bad-times override loop (lines 196-199): for each bad-epoch
center add `+6` to the block of samples with `|t - center| < pad`. -/
def applyIdqBad (startT dt : ℚ) (badTimes : List ℚ) (pad : ℚ) (baseline : List ℚ) : List ℚ :=
  badTimes.foldl (fun acc c => applyMask (padPred startT dt c pad) (fun x => x + 6) acc) baseline

/-! ### iDQ baseline (seeded pseudorandom source) -/

/-- Modelled from the spec: the external `numpy.random.default_rng(seed)`
generator is missing from the source tree (it is a library collaborator);
the spec requires only "independent standard-normal random samples ...
drawn from a seeded pseudorandom source (seed is a configuration input;
same seed ⇒ bit-reproducible output)" with "no statistical fidelity
requirement".  We model it as a deterministic 64-bit linear congruential
stream, a pure function of the seed. -/
def prngState (seed : ℤ) : ℕ → ℕ
  | 0 => (seed % (2 ^ 64 : ℤ)).toNat
  | k + 1 => (6364136223846793005 * prngState seed k + 1442695040888963407) % 2 ^ 64

/-- Modelled from the spec: the iDQ baseline
`rng.standard_normal(idq_size) - 1` — one pseudorandom sample per strain
sample, each shifted by `-1`, as a pure function of seed and length. -/
def idqBaseline (seed : ℤ) (n : ℕ) : List ℚ :=
  (List.range n).map (fun k => ((prngState seed (k + 1) : ℕ) : ℚ) / 2 ^ 64 - 1)

/-! ### Output segmenter -/

/-- Python `range(start, stop, step)` for a positive `step`, with explicit
structural fuel (the fuel `(stop - start).toNat` suffices since each
iteration advances `start` by at least one). -/
def pyRangeAux (stop step : ℤ) : ℕ → ℤ → List ℤ
  | 0, _ => []
  | fuel + 1, s => if s < stop then s :: pyRangeAux stop step fuel (s + step) else []

/-- `range(start, stop, step)` as used by the frame-splitting loop. -/
def pyRange (start stop step : ℤ) : List ℤ :=
  if 0 < step then pyRangeAux stop step (stop - start).toNat start else []

/-- The frame segmentation loop (lines 210-213): for each
`s in range(start, stop, step)` emit the segment
`(s, step if s + step < stop else stop - s)`. -/
def segments (start stop step : ℤ) : List (ℤ × ℤ) :=
  (pyRange start stop step).map (fun s => (s, if s + step < stop then step else stop - s))

/-! ### Pipeline model -/

/-- The primary strain series handed over by the conditioning
collaborator: epoch, sample spacing and sample data. -/
structure Strain where
  start_time : ℚ
  delta_t : ℚ
  data : List ℚ

/-- `strain.duration = len(strain) * delta_t`. -/
def Strain.duration (s : Strain) : ℚ := (s.data.length : ℚ) * s.delta_t

/-- The configuration surface of the program (the CLI options the core
logic reads). -/
structure Config where
  output_file : String
  output_gates_file : Option String := none
  frame_duration : Option ℤ := none
  gps_start_time : ℤ := 0
  gps_end_time : ℤ := 0
  state_vector : Option String := none
  state_vector_good : Option ℕ := none
  state_off_segments : Option (List (ℚ × ℚ)) := none
  dq_vector : Option String := none
  dq_vector_good : Option ℕ := none
  dq_bad_times : Option (List ℚ) := none
  dq_bad_pad : Option ℚ := none
  idq_channel : Option String := none
  random_seed : Option ℤ := none
  idq_bad_times : Option (List ℚ) := none
  idq_bad_pad : Option ℚ := none

/-- Observable outputs of a run: a frame file written for segment
`(start, duration)`, or the single whole-span output file. -/
inductive Event where
  | frame : ℤ → ℤ → Event
  | whole : Event
deriving DecidableEq, Repr

def frameDurationError : String :=
  "Frame duration should be positive integer"

/-- The gate-log block (lines 115-120) calls the Python 2 builtin
`file(...)`, which does not exist under Python 3 (and the script requires
Python 3, since `numpy.random.default_rng` needs numpy >= 1.17); reaching
the block raises `NameError` before anything is written. -/
def gateLogNameError : String :=
  "NameError: name 'file' is not defined"

def errStateGood : String := "TypeError: state vector good value is None"

def errStateSegs : String := "TypeError: state off segments are None"

def errDqGood : String := "TypeError: DQ vector good value is None"

def errDqTimes : String := "TypeError: DQ bad times are None"

def errDqPad : String := "TypeError: DQ bad pad is None"

def errIdqTimes : String := "TypeError: idq bad times are None"

def errIdqPad : String := "TypeError: idq bad pad is None"

/-- State vector stage: only runs when `--state-vector` is given; uses
`args.state_vector_good` (line 139) then `args.state_off_segments`
(line 145), each raising at its point of use when absent. -/
def synthState (cfg : Config) (strain : Strain) : Except String (Option (String × List ℕ)) :=
  match cfg.state_vector with
  | none => .ok none
  | some name =>
    match cfg.state_vector_good with
    | none => .error errStateGood
    | some good =>
      match cfg.state_off_segments with
      | none => .error errStateSegs
      | some segs =>
          .ok (some (name, makeStateVector strain.start_time strain.duration good segs))

/-- DQ vector stage: uses `args.dq_vector_good` (line 162), iterates
`args.dq_bad_times` (line 175) and compares against `args.dq_bad_pad`
(line 176) inside the loop, each raising at its point of use when absent
(the pad is only read when the loop body runs). -/
def synthDQ (cfg : Config) (strain : Strain) : Except String (Option (String × List ℕ)) :=
  match cfg.dq_vector with
  | none => .ok none
  | some name =>
    match cfg.dq_vector_good with
    | none => .error errDqGood
    | some good =>
      match cfg.dq_bad_times with
      | none => .error errDqTimes
      | some times =>
        match cfg.dq_bad_pad with
        | some pad =>
            .ok (some (name, makeDQVector strain.start_time strain.duration good times pad))
        | none =>
            if times = [] then
              .ok (some (name, List.replicate (dqSize strain.duration) good))
            else .error errDqPad

/-- The iDQ baseline as the program computes it (line 189-190):
`default_rng(args.random_seed)` falls back to operating-system entropy
when the seed option is absent (`default_rng(None)` is entropy-seeded),
modelled by the ambient `entropy` input. -/
def idqBaselineOf (cfg : Config) (strain : Strain) (entropy : ℤ) : List ℚ :=
  idqBaseline (cfg.random_seed.getD entropy) strain.data.length

/-- iDQ stage: note that a missing `--random-seed` is NOT an error —
`default_rng(None)` succeeds with entropy seeding; only the bad-times
iteration (line 196) and the pad comparison (line 197) raise when their
option is absent. -/
def synthIdq (cfg : Config) (strain : Strain) (entropy : ℤ) :
    Except String (Option (String × List ℚ)) :=
  match cfg.idq_channel with
  | none => .ok none
  | some name =>
    let baseline := idqBaselineOf cfg strain entropy
    match cfg.idq_bad_times with
    | none => .error errIdqTimes
    | some times =>
      match cfg.idq_bad_pad with
      | some pad =>
          .ok (some (name, applyIdqBad strain.start_time strain.delta_t times pad baseline))
      | none =>
          if times = [] then .ok (some (name, baseline)) else .error errIdqPad

/-- Frame writing (lines 204-216): one frame per segment when a frame
duration was given, otherwise the whole span in one file. -/
def writeStep (cfg : Config) : List Event :=
  match cfg.frame_duration with
  | some step =>
      (segments cfg.gps_start_time cfg.gps_end_time step).map (fun sd => Event.frame sd.1 sd.2)
  | none => [Event.whole]

/-- The run after argument validation succeeded, in source order: the
gate-log block (lines 115-120), state vector, DQ vector and iDQ synthesis
(lines 135-202), then the output writes (lines 204-216).  Returns the
events emitted (writes) and the error that aborted the run, if any. -/
def runAfterValidation (cfg : Config) (strain : Strain) (entropy : ℤ) :
    List Event × Option String :=
  match cfg.output_gates_file with
  | some _ => ([], some gateLogNameError)
  | none =>
    match synthState cfg strain with
    | .error e => ([], some e)
    | .ok _ =>
      match synthDQ cfg strain with
      | .error e => ([], some e)
      | .ok _ =>
        match synthIdq cfg strain entropy with
        | .error e => ([], some e)
        | .ok _ => (writeStep cfg, none)

/-- The whole run: frame-duration validation at argument parsing
(lines 105-106, before any processing), then the rest of the pipeline. -/
def runPipeline (cfg : Config) (strain : Strain) (entropy : ℤ) :
    List Event × Option String :=
  match cfg.frame_duration with
  | some d =>
    if d ≤ 0 then ([], some frameDurationError)
    else runAfterValidation cfg strain entropy
  | none => runAfterValidation cfg strain entropy


/-! ### Supporting lemmas -/

theorem mem_fnz {q : ℕ → Bool} {n i : ℕ} : i ∈ fnz q n ↔ i < n ∧ q i = true := by
  simp [fnz, List.mem_filter, List.mem_range]

theorem fnz_pairwise (q : ℕ → Bool) (n : ℕ) : (fnz q n).Pairwise (· < ·) :=
  List.Pairwise.filter q (List.pairwise_lt_range n)

theorem sorted_le_getLast {l : List ℕ} (hp : l.Pairwise (· < ·)) (h : l ≠ []) {b : ℕ}
    (hb : b ∈ l) : b ≤ l.getLast h := by
  induction l with
  | nil => exact absurd rfl h
  | cons a t ih =>
    rcases List.mem_cons.mp hb with rfl | hbt
    · rcases t with _ | ⟨c, t2⟩
      · simp [List.getLast]
      · have h2 : (c :: t2) ≠ [] := List.cons_ne_nil c t2
        rw [List.getLast_cons h2]
        exact le_of_lt (List.rel_of_pairwise_cons hp (List.getLast_mem h2))
    · have h2 : t ≠ [] := List.ne_nil_of_mem hbt
      rw [List.getLast_cons h2]
      exact ih (List.pairwise_cons.mp hp).2 h2 hbt

theorem fnz_head_min {q : ℕ → Bool} {n a : ℕ} {rest : List ℕ}
    (hf : fnz q n = a :: rest) {j : ℕ} (hj : j < n) (hq : q j = true) : a ≤ j := by
  have hm : j ∈ fnz q n := mem_fnz.mpr ⟨hj, hq⟩
  rw [hf] at hm
  rcases List.mem_cons.mp hm with rfl | hm2
  · exact le_refl j
  · exact le_of_lt (List.rel_of_pairwise_cons (hf ▸ fnz_pairwise q n) hm2)

theorem fnz_last_max {q : ℕ → Bool} {n a : ℕ} {rest : List ℕ}
    (hf : fnz q n = a :: rest) {j : ℕ} (hj : j < n) (hq : q j = true) :
    j ≤ (a :: rest).getLast (List.cons_ne_nil a rest) := by
  have hm : j ∈ fnz q n := mem_fnz.mpr ⟨hj, hq⟩
  rw [hf] at hm
  exact sorted_le_getLast (hf ▸ fnz_pairwise q n) (List.cons_ne_nil a rest) hm

theorem fnz_head_prop {q : ℕ → Bool} {n a : ℕ} {rest : List ℕ}
    (hf : fnz q n = a :: rest) : a < n ∧ q a = true :=
  mem_fnz.mp (hf ▸ List.mem_cons_self a rest)

theorem fnz_last_prop {q : ℕ → Bool} {n a : ℕ} {rest : List ℕ}
    (hf : fnz q n = a :: rest) :
    (a :: rest).getLast (List.cons_ne_nil a rest) < n ∧
      q ((a :: rest).getLast (List.cons_ne_nil a rest)) = true := by
  have hm : (a :: rest).getLast (List.cons_ne_nil a rest) ∈ fnz q n := by
    rw [hf]
    exact List.getLast_mem (List.cons_ne_nil a rest)
  exact mem_fnz.mp hm

theorem fnz_nil_iff {q : ℕ → Bool} {n : ℕ} :
    fnz q n = [] ↔ ∀ i, i < n → q i = false := by
  constructor
  · intro h i hi
    by_contra hq
    have : i ∈ fnz q n := mem_fnz.mpr ⟨hi, by simpa using hq⟩
    simp [h] at this
  · intro h
    rcases hf : fnz q n with _ | ⟨a, rest⟩
    · rfl
    · have := fnz_head_prop hf
      rw [h a this.1] at this
      exact absurd this.2 (by simp)

/-- For an index-convex condition (one selecting a contiguous set of
indices), the first/last nonzero indices bound exactly the indices where
the condition holds. -/
theorem fnz_exact {q : ℕ → Bool} {n a : ℕ} {rest : List ℕ}
    (hconv : ∀ i1 i2 i3 : ℕ, i1 ≤ i2 → i2 ≤ i3 → i3 < n →
      q i1 = true → q i3 = true → q i2 = true)
    (hf : fnz q n = a :: rest) {i : ℕ} (hi : i < n) :
    (a ≤ i ∧ i ≤ (a :: rest).getLast (List.cons_ne_nil a rest)) ↔ q i = true := by
  constructor
  · rintro ⟨h1, h2⟩
    exact hconv a i _ h1 h2 (fnz_last_prop hf).1 (fnz_head_prop hf).2 (fnz_last_prop hf).2
  · intro hq
    exact ⟨fnz_head_min hf hi hq, fnz_last_max hf hi hq⟩

theorem applyMask_nil {q : ℕ → Bool} {f : α → α} {xs : List α}
    (h : fnz q xs.length = []) : applyMask q f xs = xs := by
  unfold applyMask
  rw [h]

theorem applyMask_cons {q : ℕ → Bool} {f : α → α} {xs : List α} {a : ℕ} {rest : List ℕ}
    (h : fnz q xs.length = a :: rest) :
    applyMask q f xs = xs.mapIdx (fun i x =>
      if a ≤ i ∧ i ≤ (a :: rest).getLast (List.cons_ne_nil a rest) then f x else x) := by
  unfold applyMask
  rw [h]

theorem applyMask_length (q : ℕ → Bool) (f : α → α) (xs : List α) :
    (applyMask q f xs).length = xs.length := by
  rcases hf : fnz q xs.length with _ | ⟨a, rest⟩
  · rw [applyMask_nil hf]
  · rw [applyMask_cons hf]
    exact List.length_mapIdx

theorem mapIdx_getD (g : ℕ → α → α) (xs : List α) (d : α) (i : ℕ) (hi : i < xs.length) :
    (xs.mapIdx g).getD i d = g i (xs.getD i d) := by
  have hi2 : i < (xs.mapIdx g).length := by rw [List.length_mapIdx]; exact hi
  rw [List.getD_eq_getElem _ d hi2, List.getD_eq_getElem _ d hi]
  simp

/-- Pointwise description of the override when the condition is
index-convex: exactly the indices satisfying the condition are updated. -/
theorem applyMask_getD {q : ℕ → Bool} (f : α → α) (xs : List α) (d : α)
    (hconv : ∀ i1 i2 i3 : ℕ, i1 ≤ i2 → i2 ≤ i3 → i3 < xs.length →
      q i1 = true → q i3 = true → q i2 = true)
    {i : ℕ} (hi : i < xs.length) :
    (applyMask q f xs).getD i d = if q i then f (xs.getD i d) else xs.getD i d := by
  rcases hf : fnz q xs.length with _ | ⟨a, rest⟩
  · rw [applyMask_nil hf]
    have hq : q i = false := (fnz_nil_iff.mp hf) i hi
    simp [hq]
  · rw [applyMask_cons hf, mapIdx_getD _ xs d i hi]
    have hiff := fnz_exact hconv hf hi
    by_cases hq : q i = true
    · simp [hq, hiff.mpr hq]
    · have hno : ¬(a ≤ i ∧ i ≤ (a :: rest).getLast (List.cons_ne_nil a rest)) := by
        intro hc
        exact hq (hiff.mp hc)
      simp [hno, hq]

/-! ### Auxiliary channel synthesizers -/

theorem sampleTime_mono {startT dt : ℚ} (hdt : 0 ≤ dt) {i j : ℕ} (h : i ≤ j) :
    sampleTime startT dt i ≤ sampleTime startT dt j := by
  unfold sampleTime
  have : (i : ℚ) ≤ (j : ℚ) := Nat.cast_le.mpr h
  nlinarith

theorem pyAbs_lt_iff {x p : ℚ} : pyAbs x < p ↔ -p < x ∧ x < p := by
  unfold pyAbs
  split
  · constructor
    · intro h
      constructor <;> linarith
    · intro h
      linarith [h.1]
  · constructor
    · intro h
      constructor <;> linarith
    · intro h
      linarith [h.2]

theorem offPred_convex {startT : ℚ} {seg : ℚ × ℚ} {n : ℕ} :
    ∀ i1 i2 i3 : ℕ, i1 ≤ i2 → i2 ≤ i3 → i3 < n →
      offPred startT seg i1 = true → offPred startT seg i3 = true →
      offPred startT seg i2 = true := by
  intro i1 i2 i3 h12 h23 _ hq1 hq3
  simp only [offPred, decide_eq_true_eq] at *
  have hdt : (0 : ℚ) ≤ stateDt := by norm_num [stateDt]
  have m12 := @sampleTime_mono startT stateDt hdt i1 i2 h12
  have m23 := @sampleTime_mono startT stateDt hdt i2 i3 h23
  exact ⟨le_trans hq1.1 m12, lt_of_le_of_lt m23 hq3.2⟩

theorem padPred_convex {startT dt c pad : ℚ} (hdt : 0 ≤ dt) {n : ℕ} :
    ∀ i1 i2 i3 : ℕ, i1 ≤ i2 → i2 ≤ i3 → i3 < n →
      padPred startT dt c pad i1 = true → padPred startT dt c pad i3 = true →
      padPred startT dt c pad i2 = true := by
  intro i1 i2 i3 h12 h23 _ hq1 hq3
  simp only [padPred, decide_eq_true_eq, pyAbs_lt_iff] at *
  have m12 := @sampleTime_mono startT dt hdt i1 i2 h12
  have m23 := @sampleTime_mono startT dt hdt i2 i3 h23
  constructor
  · linarith [hq1.1]
  · linarith [hq3.2]

/-! ### Folds of overrides -/

theorem foldl_applyMask_length (Q : β → ℕ → Bool) (F : β → α → α) (bs : List β) :
    ∀ xs : List α,
      (bs.foldl (fun acc b => applyMask (Q b) (F b) acc) xs).length = xs.length := by
  induction bs with
  | nil => intro xs; rfl
  | cons b bs ih =>
    intro xs
    rw [List.foldl_cons, ih, applyMask_length]

/-- Folding overwrite-to-`v` overrides with index-convex conditions:
an index holds `v` exactly when some condition in the list covers it. -/
theorem foldl_overwrite_getD (Q : β → ℕ → Bool) (v d : α) (bs : List β) (xs : List α)
    (hconv : ∀ b, ∀ i1 i2 i3 : ℕ, i1 ≤ i2 → i2 ≤ i3 → i3 < xs.length →
      Q b i1 = true → Q b i3 = true → Q b i2 = true)
    {i : ℕ} (hi : i < xs.length) :
    (bs.foldl (fun acc b => applyMask (Q b) (fun _ => v) acc) xs).getD i d
      = if bs.any (fun b => Q b i) then v else xs.getD i d := by
  induction bs generalizing xs with
  | nil => simp
  | cons b bs ih =>
    rw [List.foldl_cons]
    have hlen : (applyMask (Q b) (fun _ => v) xs).length = xs.length :=
      applyMask_length _ _ _
    have hstep := applyMask_getD (q := Q b) (fun _ => v) xs d (hconv b) hi
    rw [ih (applyMask (Q b) (fun _ => v) xs)
      (by rw [hlen]; exact hconv) (by rw [hlen]; exact hi)]
    rw [hstep]
    by_cases h1 : bs.any (fun b => Q b i) <;> by_cases h2 : Q b i <;>
      simp [h1, h2, List.any_cons]

/-- Folding additive `+6` overrides with index-convex conditions:
an index gains `6` for each condition in the list that covers it. -/
theorem foldl_add_getD (Q : β → ℕ → Bool) (d : ℚ) (bs : List β) (xs : List ℚ)
    (hconv : ∀ b, ∀ i1 i2 i3 : ℕ, i1 ≤ i2 → i2 ≤ i3 → i3 < xs.length →
      Q b i1 = true → Q b i3 = true → Q b i2 = true)
    {i : ℕ} (hi : i < xs.length) :
    (bs.foldl (fun acc b => applyMask (Q b) (fun x => x + 6) acc) xs).getD i d
      = xs.getD i d + 6 * ((bs.countP (fun b => Q b i) : ℕ) : ℚ) := by
  induction bs generalizing xs with
  | nil => simp
  | cons b bs ih =>
    rw [List.foldl_cons]
    have hlen : (applyMask (Q b) (fun x => x + 6) xs).length = xs.length :=
      applyMask_length _ _ _
    have hstep := applyMask_getD (q := Q b) (fun x => x + 6) xs d (hconv b) hi
    rw [ih (applyMask (Q b) (fun x => x + 6) xs)
      (by rw [hlen]; exact hconv) (by rw [hlen]; exact hi)]
    rw [hstep, List.countP_cons]
    by_cases h2 : Q b i
    · simp only [h2, if_true, if_pos]
      push_cast
      ring
    · simp [h2]

theorem pyRangeAux_head {stop step : ℤ} {fuel : ℕ} {s x : ℤ} {l : List ℤ}
    (h : pyRangeAux stop step fuel s = x :: l) : x = s ∧ s < stop := by
  cases fuel with
  | zero => simp [pyRangeAux] at h
  | succ fuel =>
    unfold pyRangeAux at h
    by_cases hs : s < stop
    · rw [if_pos hs] at h
      injection h with h1 _
      exact ⟨h1.symm, hs⟩
    · rw [if_neg hs] at h
      cases h

theorem pyRangeAux_mem {stop step : ℤ} (hstep : 0 ≤ step) :
    ∀ (fuel : ℕ) (s x : ℤ), x ∈ pyRangeAux stop step fuel s → s ≤ x ∧ x < stop := by
  intro fuel
  induction fuel with
  | zero =>
    intro s x hx
    simp [pyRangeAux] at hx
  | succ fuel ih =>
    intro s x hx
    unfold pyRangeAux at hx
    by_cases hs : s < stop
    · rw [if_pos hs] at hx
      rcases List.mem_cons.mp hx with rfl | hx2
      · exact ⟨le_refl x, hs⟩
      · have h2 := ih (s + step) x hx2
        exact ⟨by linarith [h2.1], h2.2⟩
    · rw [if_neg hs] at hx
      simp at hx

theorem pyRange_mem {start stop step x : ℤ} (hstep : 0 < step)
    (hx : x ∈ pyRange start stop step) : start ≤ x ∧ x < stop := by
  unfold pyRange at hx
  rw [if_pos hstep] at hx
  exact pyRangeAux_mem (le_of_lt hstep) _ start x hx

theorem segments_chain_aux (stop step : ℤ) :
    ∀ (fuel : ℕ) (s : ℤ),
      List.Chain' (fun p q2 => q2.1 = p.1 + p.2)
        ((pyRangeAux stop step fuel s).map
          (fun x => (x, if x + step < stop then step else stop - x))) := by
  intro fuel
  induction fuel with
  | zero =>
    intro s
    simp [pyRangeAux]
  | succ fuel ih =>
    intro s
    unfold pyRangeAux
    by_cases hs : s < stop
    · rw [if_pos hs, List.map_cons]
      rcases htail : pyRangeAux stop step fuel (s + step) with _ | ⟨x, l⟩
      · simp
      · have hx := pyRangeAux_head htail
        have ihs := ih (s + step)
        rw [htail] at ihs
        rw [List.map_cons] at ihs ⊢
        rw [List.chain'_cons]
        refine ⟨?_, ihs⟩
        have hd : (if s + step < stop then step else stop - s) = step := if_pos (hx.1 ▸ hx.2)
        simp only [hd, hx.1]
    · rw [if_neg hs]
      simp

theorem getD_replicate_of_lt {n : ℕ} {a d : α} {i : ℕ} (h : i < n) :
    (List.replicate n a).getD i d = a := by
  have h2 : i < (List.replicate n a).length := by simpa using h
  rw [List.getD_eq_getElem _ _ h2]
  simp

theorem stateSize_ten : stateSize 10 = 160 := by
  unfold stateSize
  rw [show (10 : ℚ) / stateDt = ((160 : ℤ) : ℚ) by norm_num [stateDt]]
  unfold pyInt
  rw [if_pos (by norm_num), Int.floor_intCast]
  rfl

unseal Rat.mul Rat.add Rat.sub Rat.inv

/-! ### Claim theorems -/

/-- Claim C1: for every uniformly sampled series `(start, dt, n)` with
`dt > 0` and every interval `(t0, t1)`, the interval-to-index mapping
returns `none` exactly when no sample time lies in `[t0, t1)` (so an
interval fully outside the series span is an empty no-op, never an
error), and otherwise returns the minimal inclusive index range
`[i0, i1]` containing exactly the samples whose time
`start + i * dt` lies in `[t0, t1)`. -/
theorem timeIndexRange_exact (start dt : ℚ) (n : ℕ) (t0 t1 : ℚ) (hdt : 0 < dt) :
    (timeIndexRange start dt n t0 t1 = none ↔
      ∀ i, i < n → ¬(t0 ≤ sampleTime start dt i ∧ sampleTime start dt i < t1)) ∧
    (∀ i0 i1, timeIndexRange start dt n t0 t1 = some (i0, i1) →
      i0 ≤ i1 ∧ i1 < n ∧
      ∀ i, i < n →
        ((i0 ≤ i ∧ i ≤ i1) ↔
          (t0 ≤ sampleTime start dt i ∧ sampleTime start dt i < t1))) := by
  set q : ℕ → Bool :=
    fun i => decide (t0 ≤ sampleTime start dt i ∧ sampleTime start dt i < t1) with hq
  have hqi : ∀ i, q i = true ↔ (t0 ≤ sampleTime start dt i ∧ sampleTime start dt i < t1) := by
    intro i
    rw [hq]
    simp only [decide_eq_true_eq]
  have hconv : ∀ i1 i2 i3 : ℕ, i1 ≤ i2 → i2 ≤ i3 → i3 < n →
      q i1 = true → q i3 = true → q i2 = true := by
    intro i1 i2 i3 h12 h23 _ h1 h3
    rw [hqi] at h1 h3 ⊢
    have m12 := @sampleTime_mono start dt (le_of_lt hdt) i1 i2 h12
    have m23 := @sampleTime_mono start dt (le_of_lt hdt) i2 i3 h23
    exact ⟨le_trans h1.1 m12, lt_of_le_of_lt m23 h3.2⟩
  rcases hf : fnz q n with _ | ⟨a, rest⟩
  · have hnone : timeIndexRange start dt n t0 t1 = none := by
      unfold timeIndexRange
      rw [← hq, hf]
    refine ⟨⟨fun _ i hi hc => ?_, fun _ => hnone⟩, fun i0 i1 hsome => ?_⟩
    · have hqt : q i = true := (hqi i).mpr hc
      rw [fnz_nil_iff.mp hf i hi] at hqt
      cases hqt
    · rw [hnone] at hsome
      cases hsome
  · have hsome : timeIndexRange start dt n t0 t1
        = some (a, (a :: rest).getLast (List.cons_ne_nil a rest)) := by
      unfold timeIndexRange
      rw [← hq, hf]
    constructor
    · constructor
      · intro h
        rw [hsome] at h
        cases h
      · intro hall
        exfalso
        have hh := fnz_head_prop hf
        exact hall a hh.1 ((hqi a).mp hh.2)
    · intro i0 i1 hsome2
      rw [hsome] at hsome2
      injection hsome2 with hpair
      have ha : a = i0 := congrArg Prod.fst hpair
      have hb : (a :: rest).getLast (List.cons_ne_nil a rest) = i1 :=
        congrArg Prod.snd hpair
      subst ha
      have hp : (a :: rest).Pairwise (· < ·) := by
        rw [← hf]
        exact fnz_pairwise q n
      refine ⟨?_, ?_, ?_⟩
      · rw [← hb]
        exact sorted_le_getLast hp (List.cons_ne_nil a rest) (List.mem_cons_self a rest)
      · rw [← hb]
        exact (fnz_last_prop hf).1
      · intro i hi
        rw [← hb, ← hqi i]
        exact fnz_exact hconv hf hi

/-- Claim C1 witness: a concrete series and interval where the mapper is
applied with its hypothesis discharged. -/
theorem timeIndexRange_exact_witness :
    (0 : ℚ) < 1 ∧
    ((timeIndexRange 0 1 4 1 3 = none ↔
      ∀ i, i < 4 → ¬((1:ℚ) ≤ sampleTime 0 1 i ∧ sampleTime 0 1 i < 3)) ∧
    (∀ i0 i1, timeIndexRange 0 1 4 1 3 = some (i0, i1) →
      i0 ≤ i1 ∧ i1 < 4 ∧
      ∀ i, i < 4 →
        ((i0 ≤ i ∧ i ≤ i1) ↔
          ((1:ℚ) ≤ sampleTime 0 1 i ∧ sampleTime 0 1 i < 3)))) :=
  ⟨by norm_num, timeIndexRange_exact 0 1 4 1 3 (by norm_num)⟩

/-- Claim C2: for an integer span `[start, stop)` and `frame_duration =
step > 0`, the segmenter produces exactly the segments
`(s, min(step, stop - s))` for `s` ranging over
`range(start, stop, step)`; every produced segment starts inside the
span, has positive duration and stays inside the span (so the loop stops
before `s >= stop`); consecutive segments are contiguous and
non-overlapping; and for span `[0, 100)` with `step = 30` it produces
exactly `(0,30),(30,30),(60,30),(90,10)`, whose durations sum to 100. -/
theorem segments_spec (start stop step : ℤ) (hstep : 0 < step) :
    (segments start stop step
        = (pyRange start stop step).map (fun s => (s, min step (stop - s)))) ∧
    (∀ p ∈ segments start stop step,
        start ≤ p.1 ∧ p.1 < stop ∧ 0 < p.2 ∧ p.1 + p.2 ≤ stop) ∧
    List.Chain' (fun p q2 => q2.1 = p.1 + p.2) (segments start stop step) ∧
    segments 0 100 30 = [(0, 30), (30, 30), (60, 30), (90, 10)] ∧
    ((segments 0 100 30).map Prod.snd).sum = 100 := by
  refine ⟨?_, ?_, ?_, by decide, by decide⟩
  · unfold segments
    apply List.map_congr_left
    intro s hs
    have hb := pyRange_mem hstep hs
    by_cases h : s + step < stop
    · rw [if_pos h]
      have hmin : min step (stop - s) = step := min_eq_left (by omega)
      rw [hmin]
    · rw [if_neg h]
      have hmin : min step (stop - s) = stop - s := min_eq_right (by omega)
      rw [hmin]
  · intro p hp
    unfold segments at hp
    rcases List.mem_map.mp hp with ⟨s, hs, rfl⟩
    have hb := pyRange_mem hstep hs
    by_cases h : s + step < stop
    · rw [if_pos h]
      exact ⟨hb.1, hb.2, by omega, by omega⟩
    · rw [if_neg h]
      exact ⟨hb.1, hb.2, by omega, by omega⟩
  · unfold segments pyRange
    rw [if_pos hstep]
    exact segments_chain_aux stop step _ start

/-- Claim C2 witness: the segmenter theorem applied at the concrete span
`[0, 100)` with frame duration 30, hypothesis discharged. -/
theorem segments_spec_witness :
    (0 : ℤ) < 30 ∧
    ((segments 0 100 30
        = (pyRange 0 100 30).map (fun s => (s, min 30 (100 - s)))) ∧
    (∀ p ∈ segments 0 100 30,
        0 ≤ p.1 ∧ p.1 < 100 ∧ 0 < p.2 ∧ p.1 + p.2 ≤ 100) ∧
    List.Chain' (fun p q2 => q2.1 = p.1 + p.2) (segments 0 100 30) ∧
    segments 0 100 30 = [(0, 30), (30, 30), (60, 30), (90, 10)] ∧
    ((segments 0 100 30).map Prod.snd).sum = 100) :=
  ⟨by decide, segments_spec 0 100 30 (by decide)⟩

/-- Claim C10: every override operation touches only the contiguous index
block running from the first to the last index satisfying its condition:
the series length is unchanged; when no index satisfies the condition the
series is unchanged; otherwise the block is bounded by the first and last
satisfying indices, every sample inside the block is updated by the
override function and every sample outside it is untouched. -/
theorem override_block_effect (q : ℕ → Bool) (f : α → α) (xs : List α) (d : α) :
    ((applyMask q f xs).length = xs.length) ∧
    (fnz q xs.length = [] → applyMask q f xs = xs) ∧
    (∀ a rest, fnz q xs.length = a :: rest →
      (q a = true ∧ q ((a :: rest).getLast (List.cons_ne_nil a rest)) = true ∧
        ∀ j, j < xs.length → q j = true →
          a ≤ j ∧ j ≤ (a :: rest).getLast (List.cons_ne_nil a rest)) ∧
      ∀ i, i < xs.length →
        ((a ≤ i ∧ i ≤ (a :: rest).getLast (List.cons_ne_nil a rest)) →
            (applyMask q f xs).getD i d = f (xs.getD i d)) ∧
        (¬(a ≤ i ∧ i ≤ (a :: rest).getLast (List.cons_ne_nil a rest)) →
            (applyMask q f xs).getD i d = xs.getD i d)) := by
  refine ⟨applyMask_length q f xs, applyMask_nil, ?_⟩
  intro a rest hf
  refine ⟨⟨(fnz_head_prop hf).2, (fnz_last_prop hf).2,
    fun j hj hqj => ⟨fnz_head_min hf hj hqj, fnz_last_max hf hj hqj⟩⟩, ?_⟩
  intro i hi
  rw [applyMask_cons hf, mapIdx_getD _ xs d i hi]
  constructor
  · intro hin
    rw [if_pos hin]
  · intro hout
    rw [if_neg hout]

/-- Claim C10 witness: the block-effect theorem applied to a concrete
override. -/
theorem override_block_effect_witness :
    ((applyMask (fun i => decide (1 ≤ i ∧ i ≤ 2)) (fun x => x + 10) ([5, 6, 7, 8] : List ℕ)).length
        = ([5, 6, 7, 8] : List ℕ).length) ∧
    (fnz (fun i => decide (1 ≤ i ∧ i ≤ 2)) ([5, 6, 7, 8] : List ℕ).length = [] →
      applyMask (fun i => decide (1 ≤ i ∧ i ≤ 2)) (fun x => x + 10) [5, 6, 7, 8] = [5, 6, 7, 8]) ∧
    (∀ a rest, fnz (fun i => decide (1 ≤ i ∧ i ≤ 2)) ([5, 6, 7, 8] : List ℕ).length = a :: rest →
      ((fun i => decide (1 ≤ i ∧ i ≤ 2)) a = true ∧
        (fun i => decide (1 ≤ i ∧ i ≤ 2)) ((a :: rest).getLast (List.cons_ne_nil a rest)) = true ∧
        ∀ j, j < ([5, 6, 7, 8] : List ℕ).length → (fun i => decide (1 ≤ i ∧ i ≤ 2)) j = true →
          a ≤ j ∧ j ≤ (a :: rest).getLast (List.cons_ne_nil a rest)) ∧
      ∀ i, i < ([5, 6, 7, 8] : List ℕ).length →
        ((a ≤ i ∧ i ≤ (a :: rest).getLast (List.cons_ne_nil a rest)) →
            (applyMask (fun i => decide (1 ≤ i ∧ i ≤ 2)) (fun x => x + 10) [5, 6, 7, 8]).getD i 0
              = (([5, 6, 7, 8] : List ℕ).getD i 0) + 10) ∧
        (¬(a ≤ i ∧ i ≤ (a :: rest).getLast (List.cons_ne_nil a rest)) →
            (applyMask (fun i => decide (1 ≤ i ∧ i ≤ 2)) (fun x => x + 10) [5, 6, 7, 8]).getD i 0
              = ([5, 6, 7, 8] : List ℕ).getD i 0)) :=
  override_block_effect (fun i => decide (1 ≤ i ∧ i ≤ 2)) (fun x => x + 10) [5, 6, 7, 8] 0

/-- Claim C3: for the state vector channel (sample spacing 1/16 s, length
`int(10 / (1/16)) = 160` for a 10-second span, aligned to the strain's
start time), good value 2 and one off-interval `[3, 5)`, every sample
whose time lies in `[3, 5)` equals 0 and every other sample equals 2;
applying an additional overlapping off-interval `[4, 6)` leaves every
sample covered by either interval at 0 (overlap is idempotent) and all
others at 2. -/
theorem state_vector_spec (startT : ℚ) (d : ℕ) {i : ℕ} (hi : i < 160) :
    ((makeStateVector startT 10 2 [(3, 5)]).length = 160) ∧
    ((makeStateVector startT 10 2 [(3, 5)]).getD i d
        = if 3 ≤ sampleTime startT stateDt i ∧ sampleTime startT stateDt i < 5
          then 0 else 2) ∧
    ((makeStateVector startT 10 2 [(3, 5), (4, 6)]).getD i d
        = if (3 ≤ sampleTime startT stateDt i ∧ sampleTime startT stateDt i < 5)
            ∨ (4 ≤ sampleTime startT stateDt i ∧ sampleTime startT stateDt i < 6)
          then 0 else 2) := by
  have hi2 : i < stateSize 10 := by
    rw [stateSize_ten]
    exact hi
  have hi3 : i < (List.replicate (stateSize 10) (2 : ℕ)).length := by
    rw [List.length_replicate]
    exact hi2
  have hbase : (List.replicate (stateSize 10) (2 : ℕ)).getD i d = 2 :=
    getD_replicate_of_lt hi2
  refine ⟨?_, ?_, ?_⟩
  · unfold makeStateVector
    rw [foldl_applyMask_length, List.length_replicate, stateSize_ten]
  · unfold makeStateVector
    rw [foldl_overwrite_getD (offPred startT) 0 d [(3, 5)] _
      (fun seg => offPred_convex) hi3, hbase]
    simp only [List.any_cons, List.any_nil, Bool.or_false, offPred, decide_eq_true_eq]
  · unfold makeStateVector
    rw [foldl_overwrite_getD (offPred startT) 0 d [(3, 5), (4, 6)] _
      (fun seg => offPred_convex) hi3, hbase]
    simp only [List.any_cons, List.any_nil, Bool.or_false, Bool.or_eq_true, offPred,
      decide_eq_true_eq]

/-- Claim C3 witness: the state-vector theorem applied at epoch 0 and
sample index 50, hypothesis discharged. -/
theorem state_vector_spec_witness :
    50 < 160 ∧
    (((makeStateVector 0 10 2 [(3, 5)]).length = 160) ∧
    ((makeStateVector 0 10 2 [(3, 5)]).getD 50 0
        = if 3 ≤ sampleTime 0 stateDt 50 ∧ sampleTime 0 stateDt 50 < 5
          then 0 else 2) ∧
    ((makeStateVector 0 10 2 [(3, 5), (4, 6)]).getD 50 0
        = if (3 ≤ sampleTime 0 stateDt 50 ∧ sampleTime 0 stateDt 50 < 5)
            ∨ (4 ≤ sampleTime 0 stateDt 50 ∧ sampleTime 0 stateDt 50 < 6)
          then 0 else 2)) :=
  ⟨by norm_num, state_vector_spec 0 0 (by norm_num)⟩

/-- Claim C4 counterexample: with good value 0, bad-epoch center 1/32 and
pad 1/64, the DQ sample at index 1 has time 1/64 = center - pad, which
lies in the claimed half-open interval `[center - pad, center + pad)`,
yet the code leaves it at the good value 0 instead of the bad value 1,
because the source compares `abs(t - center) < pad` strictly. -/
theorem dq_boundary_counterexample :
    (((1 : ℚ)/32 - 1/64 ≤ sampleTime 0 dqDt 1 ∧ sampleTime 0 dqDt 1 < 1/32 + 1/64) ∧
      dqBad 0 = 1) ∧
    (makeDQVector 0 (1/16) 0 [1/32] (1/64)).getD 1 0 = 0 := by decide

/-- Claim C4 (amended): for the DQ vector channel, for each configured
bad-epoch center `c` and shared pad `p`, exactly the samples whose time
`t` satisfies `|t - c| < p` — the open interval `(c - p, c + p)`, strict
at both ends — are set to the bad value (1 when the configured good value
is 0, and 0 otherwise), and all other samples retain the good baseline
value. -/
theorem dq_vector_spec (startT duration : ℚ) (good : ℕ) (badTimes : List ℚ) (pad : ℚ)
    (d : ℕ) {i : ℕ} (hi : i < dqSize duration) :
    ((makeDQVector startT duration good badTimes pad).length = dqSize duration) ∧
    ((∃ c ∈ badTimes, pyAbs (sampleTime startT dqDt i - c) < pad) →
        (makeDQVector startT duration good badTimes pad).getD i d = dqBad good) ∧
    ((∀ c ∈ badTimes, ¬ pyAbs (sampleTime startT dqDt i - c) < pad) →
        (makeDQVector startT duration good badTimes pad).getD i d = good) ∧
    dqBad 0 = 1 ∧ (∀ g, g ≠ 0 → dqBad g = 0) := by
  have hdq : (0 : ℚ) ≤ dqDt := by norm_num [dqDt]
  have hi3 : i < (List.replicate (dqSize duration) good).length := by
    rw [List.length_replicate]
    exact hi
  have hkey : (makeDQVector startT duration good badTimes pad).getD i d
      = if badTimes.any (fun c => padPred startT dqDt c pad i) then dqBad good else good := by
    unfold makeDQVector
    rw [foldl_overwrite_getD (fun c => padPred startT dqDt c pad) (dqBad good) d badTimes _
      (fun c => padPred_convex hdq) hi3, getD_replicate_of_lt hi]
  refine ⟨?_, ?_, ?_, by simp [dqBad], fun g hg => by simp [dqBad, hg]⟩
  · unfold makeDQVector
    rw [foldl_applyMask_length, List.length_replicate]
  · intro hex
    rw [hkey, if_pos]
    rw [List.any_eq_true]
    rcases hex with ⟨c, hc, hlt⟩
    exact ⟨c, hc, by simpa [padPred] using hlt⟩
  · intro hall
    rw [hkey, if_neg]
    rw [List.any_eq_true]
    rintro ⟨c, hc, hlt⟩
    exact hall c hc (by simpa [padPred] using hlt)

/-- Claim C4 witness: the amended DQ theorem applied at a concrete index,
hypothesis discharged. -/
theorem dq_vector_spec_witness :
    2 < dqSize (1/16) ∧
    (((makeDQVector 0 (1/16) 0 [1/32] (1/64)).length = dqSize (1/16)) ∧
    ((∃ c ∈ ([1/32] : List ℚ), pyAbs (sampleTime 0 dqDt 2 - c) < 1/64) →
        (makeDQVector 0 (1/16) 0 [1/32] (1/64)).getD 2 0 = dqBad 0) ∧
    ((∀ c ∈ ([1/32] : List ℚ), ¬ pyAbs (sampleTime 0 dqDt 2 - c) < 1/64) →
        (makeDQVector 0 (1/16) 0 [1/32] (1/64)).getD 2 0 = 0) ∧
    dqBad 0 = 1 ∧ (∀ g, g ≠ 0 → dqBad g = 0)) :=
  ⟨by decide, dq_vector_spec (i := 2) 0 (1/16) 0 [1/32] (1/64) 0 (by decide)⟩

/-- Claim C5: for the iDQ channel, the bad-times override adds `+6` to
every sample whose time `t` satisfies `|t - c| < p` — in general one `+6`
per covering bad epoch, so the override is additive rather than
overwriting: a single epoch yields baseline + 6 on exactly the covered
samples, and a sample covered by two (overlapping) epochs ends at
baseline + 12. -/
theorem idq_additive_spec (startT dt : ℚ) (hdt : 0 < dt) (baseline : List ℚ)
    (pad : ℚ) (d : ℚ) {i : ℕ} (hi : i < baseline.length) :
    (∀ badTimes : List ℚ,
      (applyIdqBad startT dt badTimes pad baseline).getD i d
        = baseline.getD i d
          + 6 * ((badTimes.countP (fun c => padPred startT dt c pad i) : ℕ) : ℚ)) ∧
    (∀ c : ℚ,
      (applyIdqBad startT dt [c] pad baseline).getD i d
        = baseline.getD i d
          + if pyAbs (sampleTime startT dt i - c) < pad then 6 else 0) ∧
    (∀ c1 c2 : ℚ, pyAbs (sampleTime startT dt i - c1) < pad →
        pyAbs (sampleTime startT dt i - c2) < pad →
      (applyIdqBad startT dt [c1, c2] pad baseline).getD i d
        = baseline.getD i d + 12) := by
  have hmain : ∀ badTimes : List ℚ,
      (applyIdqBad startT dt badTimes pad baseline).getD i d
        = baseline.getD i d
          + 6 * ((badTimes.countP (fun c => padPred startT dt c pad i) : ℕ) : ℚ) := by
    intro bts
    unfold applyIdqBad
    exact foldl_add_getD (fun c => padPred startT dt c pad) d bts baseline
      (fun c => padPred_convex (le_of_lt hdt)) hi
  refine ⟨hmain, ?_, ?_⟩
  · intro c
    rw [hmain [c]]
    by_cases h : pyAbs (sampleTime startT dt i - c) < pad
    · simp [List.countP_cons, padPred, h]
    · simp [List.countP_cons, padPred, h]
  · intro c1 c2 h1 h2
    rw [hmain [c1, c2]]
    simp only [List.countP_cons, List.countP_nil, padPred, decide_eq_true_eq, h1, h2,
      if_true, if_pos]
    norm_num

/-- Claim C5 witness: the additive-override theorem applied to a concrete
baseline and index, hypotheses discharged. -/
theorem idq_additive_spec_witness :
    (0 : ℚ) < 1 ∧ 1 < ([10, 20, 30] : List ℚ).length ∧
    ((∀ badTimes : List ℚ,
      (applyIdqBad 0 1 badTimes 1 [10, 20, 30]).getD 1 0
        = ([10, 20, 30] : List ℚ).getD 1 0
          + 6 * ((badTimes.countP (fun c => padPred 0 1 c 1 1) : ℕ) : ℚ)) ∧
    (∀ c : ℚ,
      (applyIdqBad 0 1 [c] 1 [10, 20, 30]).getD 1 0
        = ([10, 20, 30] : List ℚ).getD 1 0
          + if pyAbs (sampleTime 0 1 1 - c) < 1 then 6 else 0) ∧
    (∀ c1 c2 : ℚ, pyAbs (sampleTime 0 1 1 - c1) < 1 →
        pyAbs (sampleTime 0 1 1 - c2) < 1 →
      (applyIdqBad 0 1 [c1, c2] 1 [10, 20, 30]).getD 1 0
        = ([10, 20, 30] : List ℚ).getD 1 0 + 12)) :=
  ⟨by norm_num, by norm_num,
    idq_additive_spec 0 1 (by norm_num) [10, 20, 30] 1 0 (by norm_num)⟩

/-- Claim C6: the iDQ baseline is a function of the configured random
seed and the strain length alone — two runs with the same seed and
equally long strains produce identical baseline sample sequences,
whatever the ambient entropy or the rest of the strain. -/
theorem idq_baseline_deterministic (seed : ℤ) (cfg1 cfg2 : Config) (s1 s2 : Strain)
    (e1 e2 : ℤ) (h1 : cfg1.random_seed = some seed) (h2 : cfg2.random_seed = some seed)
    (hlen : s1.data.length = s2.data.length) :
    idqBaselineOf cfg1 s1 e1 = idqBaselineOf cfg2 s2 e2 := by
  unfold idqBaselineOf
  rw [h1, h2, hlen]
  simp

/-- Claim C6 witness: two runs with seed 7, different entropy, different
strain data of equal length. -/
theorem idq_baseline_deterministic_witness :
    ({ output_file := "a", random_seed := some 7 } : Config).random_seed = some 7 ∧
    ({ output_file := "b", random_seed := some 7 } : Config).random_seed = some 7 ∧
    (⟨0, 1, [1, 2]⟩ : Strain).data.length = (⟨5, 2, [3, 4]⟩ : Strain).data.length ∧
    idqBaselineOf { output_file := "a", random_seed := some 7 } ⟨0, 1, [1, 2]⟩ 11
      = idqBaselineOf { output_file := "b", random_seed := some 7 } ⟨5, 2, [3, 4]⟩ 22 :=
  ⟨rfl, rfl, rfl,
    idq_baseline_deterministic 7 _ _ _ _ 11 22 rfl rfl rfl⟩

theorem synthState_ok_no_missing {cfg : Config} {strain : Strain}
    {v : Option (String × List ℕ)} (h : synthState cfg strain = .ok v) :
    ¬(cfg.state_vector.isSome = true ∧
      (cfg.state_vector_good = none ∨ cfg.state_off_segments = none)) := by
  rintro ⟨hsome, hopt⟩
  unfold synthState at h
  rcases hsv : cfg.state_vector with _ | name
  · rw [hsv] at hsome
    cases hsome
  · rw [hsv] at h
    rcases hg : cfg.state_vector_good with _ | g
    · rw [hg] at h
      cases h
    · rw [hg] at h
      rcases hopt with h1 | h2
      · rw [h1] at hg
        cases hg
      · rw [h2] at h
        cases h

theorem synthDQ_ok_no_missing {cfg : Config} {strain : Strain}
    {v : Option (String × List ℕ)} (h : synthDQ cfg strain = .ok v) :
    ¬(cfg.dq_vector.isSome = true ∧
      (cfg.dq_vector_good = none ∨ cfg.dq_bad_times = none ∨
        (cfg.dq_bad_pad = none ∧ ∃ ts, cfg.dq_bad_times = some ts ∧ ts ≠ []))) := by
  rintro ⟨hsome, hopt⟩
  unfold synthDQ at h
  rcases hdv : cfg.dq_vector with _ | name
  · rw [hdv] at hsome
    cases hsome
  · rw [hdv] at h
    rcases hg : cfg.dq_vector_good with _ | g
    · rw [hg] at h
      cases h
    · rw [hg] at h
      rcases ht : cfg.dq_bad_times with _ | ts
      · rw [ht] at h
        cases h
      · rw [ht] at h
        rcases hopt with h1 | h2 | h3
        · rw [h1] at hg
          cases hg
        · rw [h2] at ht
          cases ht
        · rcases h3 with ⟨hpad, ts2, hts2, hne⟩
          rw [hpad] at h
          rw [ht] at hts2
          injection hts2 with hts3
          have hne2 : ¬(ts = []) := by
            rw [hts3]
            exact hne
          simp [hne2] at h

theorem synthIdq_ok_no_missing {cfg : Config} {strain : Strain} {entropy : ℤ}
    {v : Option (String × List ℚ)} (h : synthIdq cfg strain entropy = .ok v) :
    ¬(cfg.idq_channel.isSome = true ∧
      (cfg.idq_bad_times = none ∨
        (cfg.idq_bad_pad = none ∧ ∃ ts, cfg.idq_bad_times = some ts ∧ ts ≠ []))) := by
  rintro ⟨hsome, hopt⟩
  unfold synthIdq at h
  rcases hic : cfg.idq_channel with _ | name
  · rw [hic] at hsome
    cases hsome
  · rw [hic] at h
    rcases ht : cfg.idq_bad_times with _ | ts
    · rw [ht] at h
      cases h
    · rw [ht] at h
      rcases hopt with h1 | h2
      · rw [h1] at ht
        cases ht
      · rcases h2 with ⟨hpad, ts2, hts2, hne⟩
        rw [hpad] at h
        rw [ht] at hts2
        injection hts2 with hts3
        have hne2 : ¬(ts = []) := by
          rw [hts3]
          exact hne
        simp [hne2] at h

/-- Claim C7: a provided frame duration must be positive: `d <= 0` is
rejected by the argument-parsing validation before any processing (strain
conditioning, synthesis or writing) begins, and such a run emits no
output events. -/
theorem frame_duration_validation (cfg : Config) (strain : Strain) (entropy : ℤ) (dd : ℤ)
    (hfd : cfg.frame_duration = some dd) (hneg : dd ≤ 0) :
    runPipeline cfg strain entropy = ([], some frameDurationError) := by
  unfold runPipeline
  rw [hfd]
  simp [hneg]

/-- Claim C7 witness: a run with frame duration 0 is rejected with no
output. -/
theorem frame_duration_validation_witness :
    ({ output_file := "x", frame_duration := some 0 } : Config).frame_duration = some 0 ∧
    (0 : ℤ) ≤ 0 ∧
    runPipeline { output_file := "x", frame_duration := some 0 } ⟨0, 1, []⟩ 5
      = ([], some frameDurationError) :=
  ⟨rfl, le_refl 0,
    frame_duration_validation { output_file := "x", frame_duration := some 0 } ⟨0, 1, []⟩ 5 0
      rfl (le_refl 0)⟩

/-- Claim C8 counterexample: the iDQ channel is enabled and its random
seed — a required sub-parameter of the noise-monitor configuration — is
absent, yet the run does not fail: `default_rng(None)` falls back to
entropy seeding, synthesis proceeds, and the output is written. -/
theorem missing_seed_not_rejected :
    runPipeline
      { output_file := "out.gwf", idq_channel := some "IDQ", random_seed := none,
        idq_bad_times := some [100], idq_bad_pad := some 1 }
      ⟨0, 1, [0, 0]⟩ 42
      = ([Event.whole], none) := by decide

/-- Claim C8 (amended): for the state-vector good value and off-segment
list, the DQ good value, bad times and pad, and the iDQ bad times and
pad, enabling the channel while the sub-parameter is absent makes the run
fail at the point of use of the missing parameter, with no output events
emitted (all writes come after synthesis); the iDQ random seed is the
exception — when absent the generator silently falls back to entropy
seeding and the run proceeds (see the counterexample). -/
theorem missing_subparam_fails (cfg : Config) (strain : Strain) (entropy : ℤ)
    (hmiss :
      (cfg.state_vector.isSome = true ∧
        (cfg.state_vector_good = none ∨ cfg.state_off_segments = none)) ∨
      (cfg.dq_vector.isSome = true ∧
        (cfg.dq_vector_good = none ∨ cfg.dq_bad_times = none ∨
          (cfg.dq_bad_pad = none ∧ ∃ ts, cfg.dq_bad_times = some ts ∧ ts ≠ []))) ∨
      (cfg.idq_channel.isSome = true ∧
        (cfg.idq_bad_times = none ∨
          (cfg.idq_bad_pad = none ∧ ∃ ts, cfg.idq_bad_times = some ts ∧ ts ≠ [])))) :
    (runPipeline cfg strain entropy).1 = [] ∧
    (runPipeline cfg strain entropy).2.isSome = true := by
  have hrun : (runAfterValidation cfg strain entropy).1 = [] ∧
      (runAfterValidation cfg strain entropy).2.isSome = true := by
    unfold runAfterValidation
    rcases hg : cfg.output_gates_file with _ | fn
    · cases hs : synthState cfg strain with
      | error e => exact ⟨rfl, rfl⟩
      | ok v =>
        cases hdq : synthDQ cfg strain with
        | error e => exact ⟨rfl, rfl⟩
        | ok v2 =>
          cases hidq : synthIdq cfg strain entropy with
          | error e => exact ⟨rfl, rfl⟩
          | ok v3 =>
            exfalso
            rcases hmiss with hm | hm | hm
            · exact synthState_ok_no_missing hs hm
            · exact synthDQ_ok_no_missing hdq hm
            · exact synthIdq_ok_no_missing hidq hm
    · exact ⟨rfl, rfl⟩
  unfold runPipeline
  rcases hfd : cfg.frame_duration with _ | dd
  · exact hrun
  · by_cases hdd : dd ≤ 0
    · simp [hdd]
    · simp only [if_neg hdd]
      exact hrun

/-- Claim C8 witness: a run with the state vector enabled but both its
good value and off segments absent fails with no output events. -/
theorem missing_subparam_fails_witness :
    ((({ output_file := "x", state_vector := some "SV" } : Config).state_vector.isSome = true ∧
      (({ output_file := "x", state_vector := some "SV" } : Config).state_vector_good = none ∨
        ({ output_file := "x", state_vector := some "SV" } : Config).state_off_segments
          = none)) ∨
      (({ output_file := "x", state_vector := some "SV" } : Config).dq_vector.isSome = true ∧
        (({ output_file := "x", state_vector := some "SV" } : Config).dq_vector_good = none ∨
          ({ output_file := "x", state_vector := some "SV" } : Config).dq_bad_times = none ∨
          (({ output_file := "x", state_vector := some "SV" } : Config).dq_bad_pad = none ∧
            ∃ ts, ({ output_file := "x", state_vector := some "SV" } : Config).dq_bad_times
              = some ts ∧ ts ≠ []))) ∨
      (({ output_file := "x", state_vector := some "SV" } : Config).idq_channel.isSome = true ∧
        (({ output_file := "x", state_vector := some "SV" } : Config).idq_bad_times = none ∨
          (({ output_file := "x", state_vector := some "SV" } : Config).idq_bad_pad = none ∧
            ∃ ts, ({ output_file := "x", state_vector := some "SV" } : Config).idq_bad_times
              = some ts ∧ ts ≠ [])))) ∧
    (runPipeline { output_file := "x", state_vector := some "SV" } ⟨0, 1, [0]⟩ 3).1 = [] ∧
    (runPipeline { output_file := "x", state_vector := some "SV" } ⟨0, 1, [0]⟩ 3).2.isSome
      = true :=
  ⟨Or.inl ⟨rfl, Or.inl rfl⟩,
    missing_subparam_fails { output_file := "x", state_vector := some "SV" } ⟨0, 1, [0]⟩ 3
      (Or.inl ⟨rfl, Or.inl rfl⟩)⟩

/-- Claim C9: requesting a gate-log destination always aborts the run
with a `NameError` before anything is written: the gate-log block invokes
the Python 2 builtin `file(...)`, which does not exist under Python 3,
and the script can only run under Python 3 (its `default_rng` import
needs numpy >= 1.17).  So no gate log — and no other output — is ever
produced, contradicting the script's own docstring ("Optionally also
write the gating data to a text file"). -/
theorem gate_log_always_fails (cfg : Config) (strain : Strain) (entropy : ℤ) (fn : String)
    (hg : cfg.output_gates_file = some fn)
    (hfd : ∀ dd, cfg.frame_duration = some dd → 0 < dd) :
    runPipeline cfg strain entropy = ([], some gateLogNameError) := by
  have hafter : runAfterValidation cfg strain entropy = ([], some gateLogNameError) := by
    unfold runAfterValidation
    rw [hg]
  unfold runPipeline
  rcases hcase : cfg.frame_duration with _ | dd
  · exact hafter
  · simp only [if_neg (not_le.mpr (hfd dd hcase))]
    exact hafter

/-- Claim C9 witness: a run requesting a gate log aborts with the
`NameError` and writes nothing. -/
theorem gate_log_always_fails_witness :
    ({ output_file := "x", output_gates_file := some "g" } : Config).output_gates_file
      = some "g" ∧
    (∀ dd, ({ output_file := "x", output_gates_file := some "g" } : Config).frame_duration
      = some dd → 0 < dd) ∧
    runPipeline { output_file := "x", output_gates_file := some "g" } ⟨0, 1, [0]⟩ 3
      = ([], some gateLogNameError) :=
  ⟨rfl, fun _ h => Option.noConfusion h,
    gate_log_always_fails { output_file := "x", output_gates_file := some "g" } ⟨0, 1, [0]⟩ 3
      "g" rfl (fun _ h => Option.noConfusion h)⟩

end FakeFrames
